import Mathlib

/-!
Verification of the statistical disclosure-control engine
(equivalence-class partitioning, re-identification risk estimation,
k-anonymity / l-diversity / t-closeness enforcement, Laplace noise)
against its natural-language specification.

The TypeScript source is shallowly embedded: JS numbers are modelled as
rationals (the reachable computations are exact field arithmetic,
`Math.floor`, `Math.round`, `Math.min`/`Math.max` and absolute values);
JS `NaN` — reachable only through the division `0 / 0` on an empty
table — is modelled by `none` in `Option ℚ` together with the
NaN-absorbing lifted operations below.  `Map`/`Set` objects are modelled
as association lists in key-insertion order, matching JS iteration
order.  Records are association lists from column names to scalar
values.
-/

namespace Statathon

/-- Scalar cell values of a record: a JS number (modelled as an exact
rational), a string, or `null`/`undefined` (both collapsed to `null`,
which behaves identically in every modelled operation). -/
inductive Value where
  | num : ℚ → Value
  | str : String → Value
  | null : Value
deriving DecidableEq

/-- A record is a mapping from column names to scalar values, modelled
as an association list (first binding wins, as JS object property
lookup is single-valued). -/
abbrev Record := List (String × Value)

/-- Property read `row[c]`; a missing property is `undefined`,
collapsed to `Value.null`. -/
def getField (r : Record) (c : String) : Value :=
  match r.find? (fun p => p.1 == c) with
  | some p => p.2
  | none => Value.null

/-- Property write `row[c] = v` (updates an existing binding in place,
otherwise appends the new property). -/
def setField (r : Record) (c : String) (v : Value) : Record :=
  if r.any (fun p => p.1 == c) then
    r.map (fun p => if p.1 == c then (c, v) else p)
  else r ++ [(c, v)]

/-- Decimal rendering of a JS number.  It agrees with JS
`String(number)` on integers, which is the only case any theorem below
depends on (all concrete inputs use integer or string cells). -/
def numToStr (q : ℚ) : String :=
  if q.den = 1 then toString q.num else toString q

/-- JS truthiness of a scalar: `null`/`undefined`, `""` and `0` are
falsy. -/
def Value.falsy : Value → Bool
  | .num q => q == 0
  | .str s => s == ""
  | .null => true

/-- JS `String(v)` for the non-null scalars that survive a truthiness
check. -/
def Value.toStr : Value → String
  | .num q => numToStr q
  | .str s => s
  | .null => "null"

/-- Models the expression `String(row[qi] || "")`: a falsy value is
replaced by `""` before stringification. -/
def strOrEmpty (v : Value) : String :=
  if v.falsy then "" else v.toStr

/-- Element coercion performed by `Array.prototype.join`:
`null`/`undefined` become `""`, other scalars are stringified. -/
def joinStr : Value → String
  | .null => ""
  | .num q => numToStr q
  | .str s => s

/-- Equivalence-class key used by `calculateRiskMetrics`,
`applyLDiversityDistinct` and `applyTCloseness`:
`quasiIdentifiers.map((qi) => String(row[qi] || "")).join("|")`. -/
def qiKey (qis : List String) (r : Record) : String :=
  String.intercalate "|" (qis.map (fun qi => strOrEmpty (getField r qi)))

/-- The tuple of stringified quasi-identifier values of a record (the
"QI-projection" the specification speaks about, before it is joined
into a single key string). -/
def qiTuple (qis : List String) (r : Record) : List String :=
  qis.map (fun qi => strOrEmpty (getField r qi))

/-- Equivalence-class key used by `applyKAnonymityEnhanced`:
`quasiIdentifiers.map((qi) => row[qi]).join("|")` (no `|| ""`
collapse; `Array.join` renders `null`/`undefined` as `""`). -/
def kaKey (qis : List String) (r : Record) : String :=
  String.intercalate "|" (qis.map (fun qi => joinStr (getField r qi)))

/-- First-occurrence deduplication; models the key set of a JS `Map` /
element set of a JS `Set` in insertion order. -/
def dedupFirst : List String → List String
  | [] => []
  | k :: ks => k :: (dedupFirst ks).filter (fun x => x ≠ k)

/-- One step of the grouping loop over a JS `Map<string, any[]>`: the
first (unique) entry with the given key gets the row pushed onto its
array, a missing key is inserted at the end (JS `Map` insertion
order). -/
def insertGroup (k : String) (row : Record) : List (String × List Record) → List (String × List Record)
  | [] => [(k, [row])]
  | g :: gs => if g.1 == k then (g.1, g.2 ++ [row]) :: gs else g :: insertGroup k row gs

/-- The grouping loop shared by every technique (`groups` /`ecMap`
construction): fold the table into a keyed map of row lists. -/
def groupRows (keyf : Record → String) (data : List Record) : List (String × List Record) :=
  data.foldl (fun acc row => insertGroup (keyf row) row acc) []

/-- Equivalence class as in `risk-utils.ts` / `privacy-utils.ts`:
`{ key, records, size }`.  The optional `riskScore` / `distinctCount`
fields of the source interfaces are not modelled: no claim mentions
them and no modelled computation reads them. -/
structure EquivalenceClass where
  key : String
  records : List Record
  size : ℕ
deriving DecidableEq

/-- One step of the equivalence-class-building loop of
`calculateRiskMetrics` (and, identically, of `applyLDiversityDistinct`
and `applyTCloseness`): push the row onto the class with its key
(`ec.records.push(row); ec.size = ec.records.length`), creating the
class at the end of the map if absent. -/
def insertRowEC (k : String) (row : Record) : List EquivalenceClass → List EquivalenceClass
  | [] => [⟨k, [row], 1⟩]
  | ec :: ecs =>
    if ec.key == k then
      ⟨ec.key, ec.records ++ [row], (ec.records ++ [row]).length⟩ :: ecs
    else ec :: insertRowEC k row ecs

/-- The equivalence-class partition built by the engine
(`ecMap` construction in `calculateRiskMetrics`,
`applyLDiversityDistinct` and `applyTCloseness`, which all use the key
`quasiIdentifiers.map((qi) => String(row[qi] || "")).join("|")`). -/
def buildECs (qis : List String) (data : List Record) : List EquivalenceClass :=
  data.foldl (fun acc row => insertRowEC (qiKey qis row) row acc) []

/-- Concrete rows whose quasi-identifier tuples differ but whose
joined keys collide, because the separator `"|"` also occurs inside a
value. -/
def rowPipeA : Record := [("q1", Value.str "a|b"), ("q2", Value.str "c")]

/-- Second row of the separator-collision pair. -/
def rowPipeB : Record := [("q1", Value.str "a"), ("q2", Value.str "b|c")]

/-- JS `Math.round` on a finite number: round half toward positive
infinity. -/
def jsRound (q : ℚ) : ℤ := ⌊q + 1/2⌋

/-- JS division where the reachable zero-denominator case is `0 / 0 =
NaN` (modelled as `none`).  In every modelled code path a zero
denominator forces a zero numerator, so conflating NaN with the
division-by-zero result is exact on reachable inputs. -/
def nanDiv (a b : ℚ) : Option ℚ := if b = 0 then none else some (a / b)

/-- NaN-absorbing addition. -/
def nanAdd : Option ℚ → Option ℚ → Option ℚ
  | some x, some y => some (x + y)
  | _, _ => none

/-- NaN-absorbing multiplication (no reachable `0 * Infinity`). -/
def nanMul : Option ℚ → Option ℚ → Option ℚ
  | some x, some y => some (x * y)
  | _, _ => none

/-- JS `Math.min`, which returns NaN if either argument is NaN. -/
def nanMin : Option ℚ → Option ℚ → Option ℚ
  | some x, some y => some (min x y)
  | _, _ => none

/-- Result record of `calculateProsecutorRisk`. -/
structure ProsecutorMetrics where
  overall : ℚ
  perClass : List ℚ
  maxRisk : ℚ
  worstCaseRisk : ℚ
deriving DecidableEq

/-- PROSECUTOR ATTACK (`calculateProsecutorRisk` in `risk-utils.ts`):
per-class risk `1 / ec.size`, `totalRisk` accumulates `risk * ec.size`,
`maxRisk` and `worstCaseRisk` both track the running maximum (from 0),
`overall = min(totalRisk / totalRecords, 1)` with the
`totalRecords > 0` guard.  The single `forEach` accumulation is
denoted component-wise; all class sizes are ≥ 1 whenever the classes
come from the partition, so plain rational division is exact. -/
def calculateProsecutorRisk (equivalenceClasses : List EquivalenceClass) : ProsecutorMetrics :=
  let perClassRisks : List ℚ := equivalenceClasses.map (fun ec => 1 / (ec.size : ℚ))
  let totalRisk : ℚ := (equivalenceClasses.map (fun ec => (1 / (ec.size : ℚ)) * (ec.size : ℚ))).sum
  let maxRisk : ℚ := perClassRisks.foldl max 0
  let totalRecords : ℕ := (equivalenceClasses.map EquivalenceClass.size).sum
  let overallRisk : ℚ := if 0 < totalRecords then totalRisk / (totalRecords : ℚ) else 0
  ⟨min overallRisk 1, perClassRisks, maxRisk, maxRisk⟩

/-- PITMAN MODEL (`pitmanPopulationEstimate` in `risk-utils.ts`):
Beta-posterior-mean estimate of population uniques,
`round(((sampleUniques+1) / (sampleSize+2)) * populationSize)` with a
`sampleSize === 0` guard.  The denominator `alpha + beta =
sampleSize + 2` is always positive, so division is exact. -/
def pitmanPopulationEstimate (sampleUniques sampleSize : ℕ) (populationSize : ℚ) : ℚ :=
  if sampleSize = 0 then 0
  else
    let alpha : ℚ := (sampleUniques : ℚ) + 1
    let beta : ℚ := (sampleSize : ℚ) - (sampleUniques : ℚ) + 1
    let expectedProportion : ℚ := alpha / (alpha + beta)
    ((jsRound (expectedProportion * populationSize) : ℤ) : ℚ)

/-- Per-class journalist risk (`calculateJournalistRisk` loop body):
a sample-unique class scores a fixed 0.5; otherwise
`min(1, size / max(1, round((size/totalRecords) * populationSize)))`. -/
def journalistClassRisk (totalRecords : ℕ) (populationSize : ℚ) (ec : EquivalenceClass) : ℚ :=
  if ec.size = 1 then 1/2
  else
    let sampleProportion : ℚ := (ec.size : ℚ) / (totalRecords : ℚ)
    let estimatedPopGroupSize : ℚ := max 1 ((jsRound (sampleProportion * populationSize) : ℤ) : ℚ)
    min 1 ((ec.size : ℚ) / estimatedPopGroupSize)

/-- Result record of `calculateJournalistRisk`. -/
structure JournalistMetrics where
  overall : Option ℚ
  perClass : List ℚ
  sampleRecordsAtRisk : ℕ
deriving DecidableEq

/-- JOURNALIST ATTACK (`calculateJournalistRisk` in `risk-utils.ts`).
The `violationPenalty = Math.min(0.3, (kViolations / totalRecords) *
0.5)` division is NOT guarded in the source, so on an empty class list
it evaluates `0 / 0 = NaN`, which then propagates through
`Math.min(1.0, overallRisk + violationPenalty)`; the lifted `Option ℚ`
operations reproduce that.  `estimatedPopulationUniques` is computed
exactly as in the source and, as in the source, never read
afterwards. -/
def calculateJournalistRisk (equivalenceClasses : List EquivalenceClass)
    (sampleSize : ℚ) (populationSize : ℚ) : JournalistMetrics :=
  let totalRecords : ℕ := (equivalenceClasses.map EquivalenceClass.size).sum
  let sampleUniques : ℕ := (equivalenceClasses.filter (fun ec => ec.size == 1)).length
  let kViolations : ℕ := (equivalenceClasses.filter (fun ec => decide (ec.size < 2))).length
  let _estimatedPopulationUniques : ℚ :=
    pitmanPopulationEstimate sampleUniques totalRecords populationSize
  let perClassRisks : List ℚ :=
    equivalenceClasses.map (journalistClassRisk totalRecords populationSize)
  let totalJournalistRisk : ℚ :=
    (equivalenceClasses.map
      (fun ec => journalistClassRisk totalRecords populationSize ec * (ec.size : ℚ))).sum
  let sampleRecordsAtRisk : ℕ :=
    ((equivalenceClasses.filter
      (fun ec => decide (journalistClassRisk totalRecords populationSize ec > 1/5))).map
        EquivalenceClass.size).sum
  let violationPenalty : Option ℚ :=
    nanMin (some (3/10)) (nanMul (nanDiv (kViolations : ℚ) (totalRecords : ℚ)) (some (1/2)))
  let overallRisk0 : ℚ := if 0 < totalRecords then totalJournalistRisk / (totalRecords : ℚ) else 0
  let overall : Option ℚ := nanMin (some 1) (nanAdd (some overallRisk0) violationPenalty)
  ⟨overall, perClassRisks, sampleRecordsAtRisk⟩

/-- The same computation with the dead Pitman population-uniqueness
estimate deleted (the refactoring claim C10 compares against this). -/
def calculateJournalistRiskNoPitman (equivalenceClasses : List EquivalenceClass)
    (sampleSize : ℚ) (populationSize : ℚ) : JournalistMetrics :=
  let totalRecords : ℕ := (equivalenceClasses.map EquivalenceClass.size).sum
  let kViolations : ℕ := (equivalenceClasses.filter (fun ec => decide (ec.size < 2))).length
  let perClassRisks : List ℚ :=
    equivalenceClasses.map (journalistClassRisk totalRecords populationSize)
  let totalJournalistRisk : ℚ :=
    (equivalenceClasses.map
      (fun ec => journalistClassRisk totalRecords populationSize ec * (ec.size : ℚ))).sum
  let sampleRecordsAtRisk : ℕ :=
    ((equivalenceClasses.filter
      (fun ec => decide (journalistClassRisk totalRecords populationSize ec > 1/5))).map
        EquivalenceClass.size).sum
  let violationPenalty : Option ℚ :=
    nanMin (some (3/10)) (nanMul (nanDiv (kViolations : ℚ) (totalRecords : ℚ)) (some (1/2)))
  let overallRisk0 : ℚ := if 0 < totalRecords then totalJournalistRisk / (totalRecords : ℚ) else 0
  let overall : Option ℚ := nanMin (some 1) (nanAdd (some overallRisk0) violationPenalty)
  ⟨overall, perClassRisks, sampleRecordsAtRisk⟩

/-- Per-class marketer risk (`calculateMarketerRisk` loop body): a
unique class scores a fixed 0.6; otherwise the base risk
`size / max(1, round((size/totalRecords) * populationSize))` is
multiplied by `(1 + min(0.4, (5 - size) * 0.1))` UNCONDITIONALLY (the
source comment says "Boost effectiveness for groups smaller than 5",
but no `size < 5` test is performed), then capped at 1. -/
def marketerClassRisk (totalRecords : ℕ) (populationSize : ℚ) (ec : EquivalenceClass) : ℚ :=
  if ec.size = 1 then 3/5
  else
    let sampleProportion : ℚ := (ec.size : ℚ) / (totalRecords : ℚ)
    let estimatedPopGroupSize : ℚ := max 1 ((jsRound (sampleProportion * populationSize) : ℤ) : ℚ)
    let risk : ℚ := (ec.size : ℚ) / estimatedPopGroupSize
    let targetingBoost : ℚ := min (2/5) (((5 : ℚ) - (ec.size : ℚ)) * (1/10))
    min 1 (risk * (1 + targetingBoost))

/-- Result record of `calculateMarketerRisk`. -/
structure MarketerMetrics where
  overall : Option ℚ
  perClass : List ℚ
  successfulMatches : ℤ
deriving DecidableEq

/-- MARKETER ATTACK (`calculateMarketerRisk` in `risk-utils.ts`); the
violation-penalty division is unguarded exactly as in the journalist
computation. -/
def calculateMarketerRisk (equivalenceClasses : List EquivalenceClass)
    (sampleSize : ℚ) (populationSize : ℚ) : MarketerMetrics :=
  let totalRecords : ℕ := (equivalenceClasses.map EquivalenceClass.size).sum
  let kViolations : ℕ := (equivalenceClasses.filter (fun ec => decide (ec.size < 2))).length
  let perClassRisks : List ℚ :=
    equivalenceClasses.map (marketerClassRisk totalRecords populationSize)
  let totalMarketerRisk : ℚ :=
    (equivalenceClasses.map
      (fun ec => marketerClassRisk totalRecords populationSize ec * (ec.size : ℚ))).sum
  let successfulMatches : ℤ :=
    (equivalenceClasses.map (fun ec =>
      if marketerClassRisk totalRecords populationSize ec > 3/10
      then jsRound ((ec.size : ℚ) * marketerClassRisk totalRecords populationSize ec)
      else 0)).sum
  let violationPenalty : Option ℚ :=
    nanMin (some (1/4)) (nanMul (nanDiv (kViolations : ℚ) (totalRecords : ℚ)) (some (1/2)))
  let overallRisk0 : ℚ := if 0 < totalRecords then totalMarketerRisk / (totalRecords : ℚ) else 0
  let overall : Option ℚ := nanMin (some 1) (nanAdd (some overallRisk0) violationPenalty)
  ⟨overall, perClassRisks, successfulMatches⟩

/-- Result record of `calculateRiskMetrics`.  The `recommendations`
string list (presentation-only threshold messages) and the
`riskScore` annotation on the returned classes are not modelled; no
claim mentions them. -/
structure RiskMetrics where
  prosecutorRisk : ℚ
  journalistRisk : Option ℚ
  marketerRisk : Option ℚ
  equivalenceClasses : List EquivalenceClass
  uniqueRecords : ℕ
  smallGroups : ℕ
deriving DecidableEq

/-- Main risk assessment (`calculateRiskMetrics` in `risk-utils.ts`):
build the partition, run the three attack models with
`estimatedPopSize = max(data.length * populationMultiplier, 100000)`,
and count unique records and small groups.  (`sampleSize` is a
parameter of the source function that its body never reads.) -/
def calculateRiskMetrics (data : List Record) (quasiIdentifiers : List String)
    (kThreshold : ℕ) (sampleSize : ℚ) (populationMultiplier : ℚ) : RiskMetrics :=
  let equivalenceClasses := buildECs quasiIdentifiers data
  let prosecutorMetrics := calculateProsecutorRisk equivalenceClasses
  let estimatedPopSize : ℚ := max ((data.length : ℚ) * populationMultiplier) 100000
  let journalistMetrics :=
    calculateJournalistRisk equivalenceClasses (data.length : ℚ) estimatedPopSize
  let marketerMetrics :=
    calculateMarketerRisk equivalenceClasses (data.length : ℚ) estimatedPopSize
  let uniqueRecords : ℕ := (equivalenceClasses.filter (fun ec => ec.size == 1)).length
  let smallGroups : ℕ :=
    (equivalenceClasses.filter (fun ec => decide (ec.size < kThreshold) && decide (1 < ec.size))).length
  ⟨prosecutorMetrics.overall, journalistMetrics.overall, marketerMetrics.overall,
   equivalenceClasses, uniqueRecords, smallGroups⟩

/-- Replacement of one quasi-identifier value during generalization
(`applyKAnonymityEnhanced`): a number is bucketed to
`"${10*floor(v/10)}-${10*floor(v/10)+10}"`, everything else (strings,
and missing values, which JS assigns anyway) becomes the mask
`"*"`. -/
def generalizeValue : Value → Value
  | .num q =>
    let lower : ℤ := ⌊q / 10⌋ * 10
    .str (toString lower ++ "-" ++ toString (lower + 10))
  | .str _ => .str "*"
  | .null => .str "*"

/-- Generalize every quasi-identifier column of one record
(`records.map((r) => { ... quasiIdentifiers.forEach ... })`). -/
def generalizeRecord (qis : List String) (r : Record) : Record :=
  qis.foldl (fun generalized qi => setField generalized qi (generalizeValue (getField generalized qi))) r

/-- Mutable state of the `groups.forEach` loop in
`applyKAnonymityEnhanced`: `processedData`, `currentSuppressed`,
`groupSizes`. -/
structure KAState where
  processedData : List Record
  currentSuppressed : ℕ
  groupSizes : List ℕ
deriving DecidableEq

/-- One iteration of the `groups.forEach` loop of
`applyKAnonymityEnhanced`: keep a group of size ≥ k verbatim, else
suppress it if the budget allows, else keep its generalized records;
`groupSizes` records the sizes of kept (verbatim or generalized)
groups only. -/
def kaStep (qis : List String) (kValue maxSuppressed : ℤ) (st : KAState)
    (g : String × List Record) : KAState :=
  if (g.2.length : ℤ) ≥ kValue then
    ⟨st.processedData ++ g.2, st.currentSuppressed, st.groupSizes ++ [g.2.length]⟩
  else if ((st.currentSuppressed + g.2.length : ℕ) : ℤ) ≤ maxSuppressed then
    ⟨st.processedData, st.currentSuppressed + g.2.length, st.groupSizes⟩
  else
    ⟨st.processedData ++ g.2.map (generalizeRecord qis), st.currentSuppressed,
     st.groupSizes ++ [g.2.length]⟩

/-- Result record of `applyKAnonymityEnhanced`.  As in the source, the
returned `privacyRisk` field carries the 0–100 `safetyScore`
(`privacyRisk: safetyScore // Passing the 0-100 score`); the local
variable `1 - safetyScore/100` is dead. -/
structure KAnonResult where
  processedData : List Record
  recordsSuppressed : ℕ
  informationLoss : Option ℚ
  equivalenceClasses : ℕ
  avgGroupSize : ℚ
  minGroupSize : ℕ
  maxGroupSize : ℕ
  privacyRisk : ℚ
deriving DecidableEq

/-- K-ANONYMITY (`applyKAnonymityEnhanced` in the privacy utilities):
group by the raw-join key, then per group keep / suppress / generalize
with suppression budget `maxSuppressed = floor(data.length *
suppressionLimit)`.  `informationLoss = currentSuppressed /
data.length` is unguarded (NaN on the empty table, hence `Option ℚ`);
`safetyScore = min(100, round((minGroupSize / kValue) * 100))`.  The
rational division by `kValue` agrees with JS at every `kValue ≠ 0`
(all theorems below stay in that range); no parameter validation of
any kind is performed by the source. -/
def applyKAnonymityEnhanced (data : List Record) (quasiIdentifiers : List String)
    (kValue : ℤ) (suppressionLimit : ℚ) : KAnonResult :=
  let groups := groupRows (kaKey quasiIdentifiers) data
  let maxSuppressed : ℤ := ⌊(data.length : ℚ) * suppressionLimit⌋
  let st := groups.foldl (kaStep quasiIdentifiers kValue maxSuppressed) ⟨[], 0, []⟩
  let avgGroupSize : ℚ :=
    if 0 < st.groupSizes.length then (st.processedData.length : ℚ) / (st.groupSizes.length : ℚ)
    else 0
  let minGroupSize : ℕ := match st.groupSizes with | [] => 0 | h :: t => t.foldl min h
  let maxGroupSize : ℕ := match st.groupSizes with | [] => 0 | h :: t => t.foldl max h
  let safetyScore : ℚ := min 100 ((jsRound ((minGroupSize : ℚ) / (kValue : ℚ) * 100) : ℤ) : ℚ)
  ⟨st.processedData, st.currentSuppressed,
   nanDiv (st.currentSuppressed : ℚ) (data.length : ℚ),
   st.groupSizes.length, avgGroupSize, minGroupSize, maxGroupSize, safetyScore⟩

/-- Disposition the k-anonymity loop assigns to one group. -/
inductive KADisp where
  | keep
  | suppress
  | generalize
deriving DecidableEq

/-- Replay of the branch decisions of the `applyKAnonymityEnhanced`
loop (same conditions as `kaStep`, tracking only the suppression
counter), used to state which groups were kept verbatim. -/
def kaDisps (kValue maxSuppressed : ℤ) : List (String × List Record) → ℕ → List KADisp
  | [], _ => []
  | g :: gs, cur =>
    if (g.2.length : ℤ) ≥ kValue then KADisp.keep :: kaDisps kValue maxSuppressed gs cur
    else if ((cur + g.2.length : ℕ) : ℤ) ≤ maxSuppressed then
      KADisp.suppress :: kaDisps kValue maxSuppressed gs (cur + g.2.length)
    else KADisp.generalize :: kaDisps kValue maxSuppressed gs cur

/-- Records a group contributes to the output under a disposition. -/
def kaRender (qis : List String) (g : String × List Record) : KADisp → List Record
  | KADisp.keep => g.2
  | KADisp.suppress => []
  | KADisp.generalize => g.2.map (generalizeRecord qis)

/-- The sensitive-attribute value of a record as the t-closeness code
reads it: `String(row[sensitiveAttribute] || "")`. -/
def sensValue (sensitiveAttribute : String) (r : Record) : String :=
  strOrEmpty (getField r sensitiveAttribute)

/-- Number of occurrences of a value in a list of stringified
sensitive values (denotes the frequency `Map` entries). -/
def countVal (vals : List String) (v : String) : ℕ :=
  (vals.filter (fun x => x == v)).length

/-- Global sensitive-value distribution `P(v) = count(v) / data.length`
(`overallDist.get(v) || 0`: a value absent from the table has count 0,
matching the `|| 0` default). -/
def overallProb (data : List Record) (sens : String) (v : String) : ℚ :=
  (countVal (data.map (sensValue sens)) v : ℚ) / (data.length : ℚ)

/-- Per-class sensitive-value distribution
`Q(v) = count(v in class) / ec.size` (`groupDist.get(v) || 0`). -/
def groupProb (sens : String) (ec : EquivalenceClass) (v : String) : ℚ :=
  (countVal (ec.records.map (sensValue sens)) v : ℚ) / (ec.size : ℚ)

/-- The `allValues` set of the t-closeness loop: all sensitive values
of the table, then of the class, first occurrences in insertion order
(JS `Set`). -/
def tcAllValues (data : List Record) (sens : String) (ec : EquivalenceClass) : List String :=
  dedupFirst (data.map (sensValue sens) ++ ec.records.map (sensValue sens))

/-- Distance computed for one class by `applyTCloseness`:
`(Σ_{v ∈ allValues} |P(v) − Q(v)|) / 2` (the code's "EMD", i.e.
total-variation distance). -/
def classDistance (data : List Record) (sens : String) (ec : EquivalenceClass) : ℚ :=
  ((tcAllValues data sens ec).map
    (fun v => |overallProb data sens v - groupProb sens ec v|)).sum / 2

/-- Result record of `applyTCloseness`. -/
structure TCloseResult where
  processedData : List Record
  recordsSuppressed : ℕ
  informationLoss : Option ℚ
  satisfyingClasses : ℕ
  violatingClasses : ℕ
  avgDistance : ℚ
  maxDistance : ℚ
deriving DecidableEq

/-- T-CLOSENESS (`applyTCloseness` in the privacy utilities): build
the partition, compute each class's distance to the global
distribution, keep the class iff `distance ≤ tValue`.  The single
`forEach` accumulation is denoted component-wise per class;
`informationLoss = recordsSuppressed / data.length` is unguarded
(NaN on the empty table). -/
def applyTCloseness (data : List Record) (quasiIdentifiers : List String)
    (sensitiveAttribute : String) (tValue : ℚ) : TCloseResult :=
  let ecs := buildECs quasiIdentifiers data
  let distances : List ℚ := ecs.map (classDistance data sensitiveAttribute)
  let processedData : List Record :=
    ecs.flatMap (fun ec =>
      if classDistance data sensitiveAttribute ec ≤ tValue then ec.records else [])
  let recordsSuppressed : ℕ :=
    ((ecs.filter (fun ec => decide (¬ classDistance data sensitiveAttribute ec ≤ tValue))).map
      EquivalenceClass.size).sum
  let satisfyingClasses : ℕ :=
    (ecs.filter (fun ec => decide (classDistance data sensitiveAttribute ec ≤ tValue))).length
  let violatingClasses : ℕ :=
    (ecs.filter (fun ec => decide (¬ classDistance data sensitiveAttribute ec ≤ tValue))).length
  let avgDistance : ℚ := if 0 < distances.length then distances.sum / (distances.length : ℚ) else 0
  let maxDistance : ℚ := match distances with | [] => 0 | h :: t => t.foldl max h
  ⟨processedData, recordsSuppressed, nanDiv (recordsSuppressed : ℚ) (data.length : ℚ),
   satisfyingClasses, violatingClasses, avgDistance, maxDistance⟩

/-- Rows paired with their positions (the iteration index that feeds
the per-row random draws). -/
def withIdx : ℕ → List Record → List (ℕ × Record)
  | _, [] => []
  | i, r :: rs => (i, r) :: withIdx (i + 1) rs

/-- Result record of `addLaplaceNoise`. -/
structure LaplaceResult where
  processedData : List Record
  informationLoss : ℚ
deriving DecidableEq

/-- DIFFERENTIAL PRIVACY (`addLaplaceNoise` in `routes.ts`): each
numeric cell of a listed column receives additive noise; non-numeric
cells and unlisted columns are untouched; `informationLoss = 0.1 *
(1 / epsilon)`.  The realized Laplace draw `-(1/epsilon) * sign(u) *
ln(1 - 2|u|)` (random and transcendental) is abstracted into the
`noise` argument, indexed by row position and column name; everything
else — which cells change, and the returned loss — is modelled
exactly.  The source performs no validation of `epsilon`. -/
def addLaplaceNoise (data : List Record) (columns : List String) (epsilon : ℚ)
    (noise : ℕ → String → ℚ) : LaplaceResult :=
  let processedData := (withIdx 0 data).map (fun p =>
    columns.foldl (fun newRow col =>
      match getField newRow col with
      | Value.num x => setField newRow col (Value.num (x + noise p.1 col))
      | _ => newRow) p.2)
  ⟨processedData, (1/10) * (1 / epsilon)⟩

/-- A table of 20 identical rows (used to exhibit the negative
marketer risk). -/
def twentyIdenticalRows : List Record := List.replicate 20 [("a", Value.str "x")]

/-- A single equivalence class of size 6 (used to exhibit the
unconditional targeting boost). -/
def sixRecordClass : EquivalenceClass := ⟨"k", List.replicate 6 [("s", Value.str "v")], 6⟩

/-- A one-row table with a numeric cell (used for the
invalid-parameter evidence). -/
def oneNumRecord : Record := [("a", Value.num 1)]

/-- A three-row table: two rows share the quasi-identifier value `"x"`
and one has `"y"` (k-anonymity witness input). -/
def threeRowTable : List Record :=
  [[("a", Value.str "x")], [("a", Value.str "x")], [("a", Value.str "y")]]

/-- A two-row table forming a single equivalence class whose local
sensitive distribution equals the global one (t-closeness witness
input). -/
def uniformClassTable : List Record :=
  [[("q", Value.str "x"), ("s", Value.str "v")],
   [("q", Value.str "x"), ("s", Value.str "w")]]

theorem mem_dedupFirst {x : String} : ∀ {l : List String}, x ∈ dedupFirst l ↔ x ∈ l := by
  intro l
  induction l with
  | nil => simp [dedupFirst]
  | cons k ks ih =>
    simp only [dedupFirst, List.mem_cons, List.mem_filter, ih, decide_eq_true_eq]
    by_cases hx : x = k
    · simp [hx]
    · simp [hx]

theorem nodup_dedupFirst : ∀ (l : List String), (dedupFirst l).Nodup := by
  intro l
  induction l with
  | nil => simp [dedupFirst]
  | cons k ks ih =>
    refine List.Nodup.cons ?_ (ih.filter _)
    intro hmem
    have := (List.mem_filter.mp hmem).2
    simp at this

theorem dedupFirst_append_not_mem {k : String} :
    ∀ {l : List String}, k ∉ l → dedupFirst (l ++ [k]) = dedupFirst l ++ [k] := by
  intro l
  induction l with
  | nil => intro _; rfl
  | cons a l ih =>
    intro hk
    have hka : k ≠ a := fun h => hk (by simp [h])
    have hkl : k ∉ l := fun h => hk (by simp [h])
    simp only [List.cons_append, dedupFirst, List.append_eq, ih hkl, List.filter_append]
    simp [hka]

theorem dedupFirst_append_mem {k : String} :
    ∀ {l : List String}, k ∈ l → dedupFirst (l ++ [k]) = dedupFirst l := by
  intro l
  induction l with
  | nil => simp
  | cons a l ih =>
    intro hk
    by_cases hka : k = a
    · subst hka
      by_cases hkl : k ∈ l
      · simp only [List.cons_append, dedupFirst, List.append_eq, ih hkl]
      · simp only [List.cons_append, dedupFirst, List.append_eq,
          dedupFirst_append_not_mem hkl, List.filter_append]
        simp
    · have hkl : k ∈ l := by
        rcases List.mem_cons.mp hk with h | h
        · exact absurd h hka
        · exact h
      simp only [List.cons_append, dedupFirst, List.append_eq, ih hkl]

theorem insertGroup_of_not_mem {k : String} {row : Record} :
    ∀ {gs : List (String × List Record)}, k ∉ gs.map Prod.fst →
      insertGroup k row gs = gs ++ [(k, [row])] := by
  intro gs
  induction gs with
  | nil => intro _; rfl
  | cons g gs ih =>
    intro hk
    have h1 : g.1 ≠ k := fun h => hk (by simp [h])
    have h2 : k ∉ gs.map Prod.fst := fun h => hk (by simp [h])
    have hb : (g.1 == k) = false := by simp [h1]
    simp only [insertGroup, ih h2, hb, Bool.false_eq_true, if_false, List.cons_append]

/-- Canonical description of the grouping loop: the keys are the
distinct row keys in first-occurrence order and each group holds
exactly the rows with that key, in table order. -/
theorem groupRows_eq (keyf : Record → String) (data : List Record) :
    groupRows keyf data =
      (dedupFirst (data.map keyf)).map
        (fun k => (k, data.filter (fun r => keyf r == k))) := by
  induction data using List.reverseRecOn with
  | nil => rfl
  | append_singleton data row ih =>
    have hfold : groupRows keyf (data ++ [row]) =
        insertGroup (keyf row) row (groupRows keyf data) := by
      simp [groupRows, List.foldl_append]
    rw [hfold, ih]
    simp only [List.map_append, List.map_cons, List.map_nil]
    by_cases hmem : keyf row ∈ data.map keyf
    · -- the key already exists: its (unique) group gets the row appended
      rw [dedupFirst_append_mem hmem]
      have hnd : (dedupFirst (data.map keyf)).Nodup := nodup_dedupFirst _
      have hin : keyf row ∈ dedupFirst (data.map keyf) := mem_dedupFirst.mpr hmem
      revert hnd hin
      generalize dedupFirst (data.map keyf) = ks
      induction ks with
      | nil => intro _ h; cases h
      | cons k0 ks ihk =>
        intro hnd hin
        by_cases hk0 : k0 = keyf row
        · have hnotin : keyf row ∉ ks := by
            rw [← hk0]; exact (List.nodup_cons.mp hnd).1
          have hb : (k0 == keyf row) = true := by simp [hk0]
          simp only [List.map_cons, insertGroup, hb, if_true]
          have hfilter : data.filter (fun r => keyf r == k0) ++ [row] =
              (data ++ [row]).filter (fun r => keyf r == k0) := by
            simp [List.filter_append, hk0]
          rw [hfilter]
          congr 1
          apply List.map_congr_left
          intro k hk
          have hne : ¬(keyf row = k) := fun h => hnotin (h ▸ hk)
          simp [List.filter_append, hne]
        · have hin' : keyf row ∈ ks := by
            rcases List.mem_cons.mp hin with h | h
            · exact absurd h.symm hk0
            · exact h
          have hnd' : ks.Nodup := (List.nodup_cons.mp hnd).2
          have hb : (k0 == keyf row) = false := by simp [hk0]
          simp only [List.map_cons, insertGroup, hb, Bool.false_eq_true, if_false,
            ihk hnd' hin']
          have hne : ¬(keyf row = k0) := fun h => hk0 h.symm
          simp [List.filter_append, hne]
    · -- a fresh key: a new singleton group is appended at the end
      rw [dedupFirst_append_not_mem hmem]
      have hnot : keyf row ∉ (List.map (fun k => (k, data.filter (fun r => keyf r == k)))
          (dedupFirst (data.map keyf))).map Prod.fst := by
        intro hc
        rcases List.mem_map.mp hc with ⟨p, hp, hpeq⟩
        rcases List.mem_map.mp hp with ⟨k, hk, hkeq⟩
        have hkmem : k ∈ data.map keyf := mem_dedupFirst.mp hk
        have hkk : k = keyf row := by rw [← hpeq, ← hkeq]
        rw [hkk] at hkmem
        exact hmem hkmem
      rw [insertGroup_of_not_mem hnot, List.map_append]
      congr 1
      · apply List.map_congr_left
        intro k hk
        have hkmem : k ∈ data.map keyf := mem_dedupFirst.mp hk
        have hne : ¬(keyf row = k) := by
          intro h
          rw [← h] at hkmem
          exact hmem hkmem
        simp [List.filter_append, hne]
      · have hfe : data.filter (fun r => keyf r == keyf row) = [] := by
          apply List.filter_eq_nil_iff.mpr
          intro r hr hkr
          exact hmem (List.mem_map.mpr ⟨r, hr, by simpa using hkr⟩)
        simp [List.filter_append, hfe]

theorem insertRowEC_eq_insertGroup (k : String) (row : Record) :
    ∀ gs : List (String × List Record),
      insertRowEC k row (gs.map (fun g => ⟨g.1, g.2, g.2.length⟩)) =
        (insertGroup k row gs).map (fun g => ⟨g.1, g.2, g.2.length⟩) := by
  intro gs
  induction gs with
  | nil => rfl
  | cons g gs ih =>
    by_cases hb : (g.1 == k) = true
    · simp only [List.map_cons, insertRowEC, insertGroup, hb, if_true, List.map_cons]
    · have hb' : (g.1 == k) = false := by
        cases h : (g.1 == k) with
        | true => exact absurd h hb
        | false => rfl
      simp only [List.map_cons, insertRowEC, insertGroup, hb', Bool.false_eq_true,
        if_false, List.map_cons, ih]

theorem buildECs_eq_groupRows (qis : List String) (data : List Record) :
    buildECs qis data =
      (groupRows (qiKey qis) data).map (fun g => ⟨g.1, g.2, g.2.length⟩) := by
  rw [buildECs, groupRows]
  induction data using List.reverseRecOn with
  | nil => rfl
  | append_singleton data row ih =>
    rw [List.foldl_append, List.foldl_append, ih]
    simp only [List.foldl_cons, List.foldl_nil]
    exact insertRowEC_eq_insertGroup _ _ _

/-- Canonical description of the engine's partition: one class per
distinct key (in first-occurrence order), whose records are exactly
the table rows with that key, in table order, with `size` equal to the
record count. -/
theorem buildECs_eq (qis : List String) (data : List Record) :
    buildECs qis data =
      (dedupFirst (data.map (qiKey qis))).map
        (fun k => ⟨k, data.filter (fun r => qiKey qis r == k),
                   (data.filter (fun r => qiKey qis r == k)).length⟩) := by
  rw [buildECs_eq_groupRows, groupRows_eq, List.map_map]
  rfl

theorem buildECs_records_eq_filter {qis : List String} {data : List Record}
    {ec : EquivalenceClass} (h : ec ∈ buildECs qis data) :
    ec.records = data.filter (fun r => qiKey qis r == ec.key) ∧
      ec.size = (data.filter (fun r => qiKey qis r == ec.key)).length := by
  rw [buildECs_eq] at h
  rcases List.mem_map.mp h with ⟨k, _, hk⟩
  subst hk
  exact ⟨rfl, rfl⟩

/-- Auxiliary fact used below: splitting a list into the part matched
by one key and the parts matched by a nodup list of other keys is a
permutation of the part matched by any of them. -/
theorem filter_key_cons_perm (keyf : Record → String) (k : String) :
    ∀ (ks : List String) (l : List Record), k ∉ ks →
      (l.filter (fun r => keyf r == k) ++
        l.filter (fun r => decide (keyf r ∈ ks))).Perm
        (l.filter (fun r => decide (keyf r ∈ k :: ks))) := by
  intro ks l hk
  induction l with
  | nil => simp
  | cons r l ihl =>
    by_cases h1 : keyf r = k
    · have hb1 : (keyf r == k) = true := by simp [h1]
      have hb2 : decide (keyf r ∈ ks) = false := by
        simp only [decide_eq_false_iff_not]
        rw [h1]; exact hk
      have hb3 : decide (keyf r ∈ k :: ks) = true := by simp [h1]
      simp only [List.filter_cons, hb1, hb2, hb3, Bool.false_eq_true, if_false, if_true,
        List.cons_append]
      exact ihl.cons r
    · have hb1 : (keyf r == k) = false := by simp [h1]
      by_cases h2 : keyf r ∈ ks
      · have hb2 : decide (keyf r ∈ ks) = true := by simp [h2]
        have hb3 : decide (keyf r ∈ k :: ks) = true := by simp [h2]
        simp only [List.filter_cons, hb1, hb2, hb3, Bool.false_eq_true, if_false, if_true]
        exact (List.perm_middle).trans (ihl.cons r)
      · have hb2 : decide (keyf r ∈ ks) = false := by simp [h2]
        have hb3 : decide (keyf r ∈ k :: ks) = false := by simp [h1, h2]
        simp only [List.filter_cons, hb1, hb2, hb3, Bool.false_eq_true, if_false]
        exact ihl

theorem join_filter_perm (keyf : Record → String) :
    ∀ (ks : List String) (l : List Record), ks.Nodup →
      ((ks.map (fun k => l.filter (fun r => keyf r == k))).flatten).Perm
        (l.filter (fun r => decide (keyf r ∈ ks))) := by
  intro ks
  induction ks with
  | nil => intro l _; simp
  | cons k ks ih =>
    intro l hnd
    simp only [List.map_cons, List.flatten_cons]
    have h1 := (ih l (List.nodup_cons.mp hnd).2).append_left (l.filter (fun r => keyf r == k))
    exact h1.trans (filter_key_cons_perm keyf k ks l (List.nodup_cons.mp hnd).1)

/-- The multiset union of all class record lists is the table itself:
partitioning neither gains, loses, nor duplicates a record. -/
theorem buildECs_join_perm (qis : List String) (data : List Record) :
    (((buildECs qis data).map EquivalenceClass.records).flatten).Perm data := by
  rw [buildECs_eq, List.map_map]
  have h1 : (List.map (EquivalenceClass.records ∘ fun k =>
        (⟨k, data.filter (fun r => qiKey qis r == k),
          (data.filter (fun r => qiKey qis r == k)).length⟩ : EquivalenceClass))
        (dedupFirst (data.map (qiKey qis)))) =
      (dedupFirst (data.map (qiKey qis))).map
        (fun k => data.filter (fun r => qiKey qis r == k)) := rfl
  rw [h1]
  have h2 := join_filter_perm (qiKey qis) (dedupFirst (data.map (qiKey qis))) data
    (nodup_dedupFirst _)
  have h3 : data.filter (fun r => decide (qiKey qis r ∈ dedupFirst (data.map (qiKey qis)))) =
      data := by
    apply List.filter_eq_self.mpr
    intro r hr
    simp only [decide_eq_true_eq]
    exact mem_dedupFirst.mpr (List.mem_map.mpr ⟨r, hr, rfl⟩)
  rw [h3] at h2
  exact h2

theorem buildECs_size_eq {qis : List String} {data : List Record}
    {ec : EquivalenceClass} (h : ec ∈ buildECs qis data) :
    ec.size = ec.records.length := by
  rcases buildECs_records_eq_filter h with ⟨h1, h2⟩
  rw [h1, h2]

/-- The class sizes sum to the table size. -/
theorem buildECs_sum_sizes (qis : List String) (data : List Record) :
    ((buildECs qis data).map EquivalenceClass.size).sum = data.length := by
  have hperm := buildECs_join_perm qis data
  have hlen : (((buildECs qis data).map EquivalenceClass.records).flatten).length =
      data.length := hperm.length_eq
  rw [List.length_flatten] at hlen
  rw [← hlen, List.map_map]
  congr 1
  apply List.map_congr_left
  intro ec hec
  simp only [Function.comp_apply]
  exact buildECs_size_eq hec

/-- C1: for every Table and QuasiIdentifierSet, the equivalence-class
partition built by the engine is a true partition of the input: the
multiset union of the `records` fields of all equivalence classes
equals the input table exactly once each (no record gained, lost or
duplicated), and each class's `size` field equals the length of its
`records` list. -/
theorem partition_is_exact (data : List Record) (qis : List String) :
    ((((buildECs qis data).map EquivalenceClass.records).flatten : List Record) :
        Multiset Record) = (data : Multiset Record) ∧
      ∀ ec ∈ buildECs qis data, ec.size = ec.records.length :=
  ⟨Quot.sound (buildECs_join_perm qis data), fun _ hec => buildECs_size_eq hec⟩

/-- C2 counterexample: the key separator `"|"` is an ordinary
character that can occur in values, so two records with different
quasi-identifier value tuples (`["a|b", "c"]` vs `["a", "b|c"]`) are
placed in the same equivalence class (both keys are `"a|b|c"`),
refuting the claimed "same class iff equal QI tuples" equivalence and
the claimed collision-freedom of the separator. -/
theorem qiKey_separator_collision :
    buildECs ["q1", "q2"] [rowPipeA, rowPipeB] =
      [⟨"a|b|c", [rowPipeA, rowPipeB], 2⟩] ∧
      qiTuple ["q1", "q2"] rowPipeA ≠ qiTuple ["q1", "q2"] rowPipeB := by
  constructor
  · decide
  · decide

/-- C2 (amended): two records are placed in the same equivalence class
iff their joined key strings (stringified QI values joined with `"|"`)
are equal — equivalently, every class consists of exactly the table
records whose joined key equals the class key, in table order, and
`size` counts them; since `"|"` can occur inside values, key equality
is coarser than QI-tuple equality. -/
theorem class_records_eq_key_filter (data : List Record) (qis : List String)
    (ec : EquivalenceClass) (h : ec ∈ buildECs qis data) :
    ec.records = data.filter (fun r => qiKey qis r == ec.key) ∧
      ec.size = (data.filter (fun r => qiKey qis r == ec.key)).length :=
  buildECs_records_eq_filter h

/-- Witness discharging the membership hypothesis of
`class_records_eq_key_filter` on a concrete one-row table. -/
theorem class_records_eq_key_filter_witness :
    (⟨"x", [[("a", Value.str "x")]], 1⟩ : EquivalenceClass).records =
      [[("a", Value.str "x")]].filter
        (fun r => qiKey ["a"] r == (⟨"x", [[("a", Value.str "x")]], 1⟩ : EquivalenceClass).key) :=
  (class_records_eq_key_filter [[("a", Value.str "x")]] ["a"] _ (by decide)).1

theorem dedupFirst_replicate (a : String) :
    ∀ n : ℕ, 0 < n → dedupFirst (List.replicate n a) = [a] := by
  intro n
  induction n with
  | zero => intro h; cases h
  | succ n ih =>
    intro _
    rw [List.replicate_succ, dedupFirst]
    cases n with
    | zero => rfl
    | succ m =>
      rw [ih (Nat.succ_pos m)]
      simp

/-- A table of identical rows forms a single equivalence class holding
the whole table. -/
theorem buildECs_replicate (qis : List String) (r : Record) (n : ℕ) (h : 0 < n) :
    buildECs qis (List.replicate n r) =
      [⟨qiKey qis r, List.replicate n r, n⟩] := by
  rw [buildECs_eq, List.map_replicate, dedupFirst_replicate _ n h]
  have hf : (List.replicate n r).filter (fun x => qiKey qis x == qiKey qis r) =
      List.replicate n r := by
    apply List.filter_eq_self.mpr
    intro a ha
    rw [List.eq_of_mem_replicate ha]
    exact beq_self_eq_true _
  simp [hf]

/-- C10: `calculateJournalistRisk` is extensionally equal to the
variant with the Pitman population-uniqueness estimate removed: the
`estimatedPopulationUniques` value is computed and never read, so the
overall risk, per-class risks and `sampleRecordsAtRisk` are
independent of it for every input. -/
theorem journalistRisk_pitman_is_dead_code :
    calculateJournalistRisk = calculateJournalistRiskNoPitman := rfl

/-- C4 refutation evidence: on a non-empty table of 20 identical rows,
`calculateRiskMetrics` returns a NEGATIVE marketer risk (-1/10000),
outside the claimed interval [0,1] — the "targeting boost"
`min(0.4, (5 - size) * 0.1)` is applied to every non-unique class, and
for `size = 20` it is -1.5, making the per-class factor `1 + boost`
negative.  Prosecutor and journalist risks stay in [0,1] on the same
input. -/
theorem marketerRisk_negative_on_uniform_table :
    (calculateRiskMetrics twentyIdenticalRows ["a"] 5 100 50).marketerRisk =
      some (-(1/10000)) ∧
    (-(1/10000) : ℚ) < 0 ∧
    (calculateRiskMetrics twentyIdenticalRows ["a"] 5 100 50).prosecutorRisk = 1/20 ∧
    (calculateRiskMetrics twentyIdenticalRows ["a"] 5 100 50).journalistRisk =
      some (1/5000) := by
  have hkey : qiKey ["a"] [("a", Value.str "x")] = "x" := by decide
  have hEC : buildECs ["a"] twentyIdenticalRows =
      [⟨"x", twentyIdenticalRows, 20⟩] := by
    rw [twentyIdenticalRows, buildECs_replicate ["a"] _ 20 (by norm_num), hkey]
  have hlen : twentyIdenticalRows.length = 20 := by
    rw [twentyIdenticalRows, List.length_replicate]
  refine ⟨?_, by norm_num, ?_, ?_⟩
  · simp only [calculateRiskMetrics, hEC, hlen, calculateMarketerRisk, marketerClassRisk]
    norm_num [jsRound, nanDiv, nanMul, nanMin, nanAdd, min_def, max_def]
  · simp only [calculateRiskMetrics, hEC, hlen, calculateProsecutorRisk]
    norm_num [min_def, max_def]
  · simp only [calculateRiskMetrics, hEC, hlen, calculateJournalistRisk, journalistClassRisk]
    norm_num [jsRound, nanDiv, nanMul, nanMin, nanAdd, min_def, max_def,
      pitmanPopulationEstimate]

/-- C5 refutation evidence: on the empty table, `prosecutorRisk` and
`uniqueRecords` are 0 as claimed, but `journalistRisk` and
`marketerRisk` are NaN (`none`) — the violation penalty divides
`kViolations / totalRecords = 0 / 0` without a guard — and
`applyKAnonymityEnhanced` reports `informationLoss = 0 / 0 = NaN`. -/
theorem emptyTable_metrics_are_nan :
    (calculateRiskMetrics [] ["a"] 5 100 50).prosecutorRisk = 0 ∧
    (calculateRiskMetrics [] ["a"] 5 100 50).uniqueRecords = 0 ∧
    (calculateRiskMetrics [] ["a"] 5 100 50).journalistRisk = none ∧
    (calculateRiskMetrics [] ["a"] 5 100 50).marketerRisk = none ∧
    (applyKAnonymityEnhanced [] ["a"] 2 (1/10)).informationLoss = none := by
  refine ⟨by decide, by decide, by decide, by decide, by decide⟩

/-- C6 refutation evidence: no operation validates its parameters.
With the invalid `kValue = -1 ≤ 0`, `applyKAnonymityEnhanced` performs
the full computation and returns the table (every class trivially
satisfies `size ≥ -1`), reporting the nonsensical safety score -100;
with the invalid `epsilon = -1 ≤ 0`, `addLaplaceNoise` performs the
full computation and returns a processed table together with the
negative `informationLoss = -0.1`. -/
theorem invalid_parameters_not_rejected :
    (applyKAnonymityEnhanced [oneNumRecord] ["a"] (-1) (1/10)).processedData =
      [oneNumRecord] ∧
    (applyKAnonymityEnhanced [oneNumRecord] ["a"] (-1) (1/10)).recordsSuppressed = 0 ∧
    (applyKAnonymityEnhanced [oneNumRecord] ["a"] (-1) (1/10)).privacyRisk = -100 ∧
    (addLaplaceNoise [oneNumRecord] ["a"] (-1) (fun _ _ => 0)).informationLoss = -(1/10) ∧
    (addLaplaceNoise [oneNumRecord] ["a"] (-1) (fun _ _ => 0)).processedData =
      [oneNumRecord] := by
  have hg : groupRows (kaKey ["a"]) [oneNumRecord] = [("1", [oneNumRecord])] := by decide
  refine ⟨by decide, by decide, ?_, ?_, ?_⟩
  · simp only [applyKAnonymityEnhanced, hg]
    norm_num [kaStep, jsRound, min_def]
  · simp only [addLaplaceNoise]
    norm_num
  · simp only [addLaplaceNoise, withIdx, oneNumRecord, getField, setField]
    norm_num [List.find?]

/-- C7 refutation evidence: for a non-unique class of size 6 ≥ 5, the
source still multiplies the base risk `6 / 10000` by
`1 + min(0.4, (5 - 6) * 0.1) = 0.9` (there is no `size < 5` test),
returning per-class risk 27/50000 instead of the claimed unchanged
base risk 3/5000. -/
theorem marketer_boost_applied_to_large_class :
    (calculateMarketerRisk [sixRecordClass] 6 10000).perClass = [27/50000] ∧
    (27/50000 : ℚ) ≠ (6 : ℚ) / 10000 := by
  constructor
  · simp only [calculateMarketerRisk, sixRecordClass]
    norm_num [marketerClassRisk, jsRound, min_def, max_def]
  · norm_num

theorem sum_map_one_rat (l : List EquivalenceClass) :
    (l.map (fun _ => (1 : ℚ))).sum = (l.length : ℚ) := by
  induction l with
  | nil => simp
  | cons a l ih => simp [ih, add_comm]

theorem sum_map_one_nat (l : List EquivalenceClass) :
    (l.map (fun _ => (1 : ℕ))).sum = l.length := by
  induction l with
  | nil => simp
  | cons a l ih => simp [ih, add_comm]

/-- C8: `calculateProsecutorRisk` returns the size-weighted mean over
all equivalence classes of the per-class risk `1/size`, capped at 1.0
(`Σ (1/size)·size / Σ size`, then `min · 1`); in particular, on a
non-empty table in which every record is its own class of size 1, the
returned overall prosecutor risk is exactly 1. -/
theorem prosecutorRisk_weighted_mean (data : List Record) (qis : List String)
    (h : data ≠ []) :
    (calculateProsecutorRisk (buildECs qis data)).overall =
      min ((((buildECs qis data).map
          (fun ec => (1 / (ec.size : ℚ)) * (ec.size : ℚ))).sum) /
        ((((buildECs qis data).map EquivalenceClass.size).sum : ℕ) : ℚ)) 1 ∧
      ((∀ ec ∈ buildECs qis data, ec.size = 1) →
        (calculateProsecutorRisk (buildECs qis data)).overall = 1) := by
  have hpos : 0 < ((buildECs qis data).map EquivalenceClass.size).sum := by
    rw [buildECs_sum_sizes]
    exact List.length_pos.mpr h
  constructor
  · simp only [calculateProsecutorRisk, if_pos hpos]
  · intro hall
    have h1 : (buildECs qis data).map (fun ec => (1 / (ec.size : ℚ)) * (ec.size : ℚ)) =
        (buildECs qis data).map (fun _ => (1 : ℚ)) :=
      List.map_congr_left (fun ec hec => by rw [hall ec hec]; norm_num)
    have h2 : (buildECs qis data).map EquivalenceClass.size =
        (buildECs qis data).map (fun _ => (1 : ℕ)) :=
      List.map_congr_left (fun ec hec => hall ec hec)
    have hlen : 0 < (buildECs qis data).length := by
      rw [h2, sum_map_one_nat] at hpos
      exact hpos
    have hne : ((buildECs qis data).length : ℚ) ≠ 0 := by
      exact_mod_cast Nat.pos_iff_ne_zero.mp hlen
    simp only [calculateProsecutorRisk, h1, h2, sum_map_one_rat, sum_map_one_nat]
    rw [if_pos hlen, div_self hne]
    exact min_self 1

/-- Witness for `prosecutorRisk_weighted_mean`: a two-row table with
distinct quasi-identifier values (two singleton classes) has overall
prosecutor risk exactly 1. -/
theorem prosecutorRisk_weighted_mean_witness :
    (calculateProsecutorRisk (buildECs ["a"]
      [[("a", Value.str "x")], [("a", Value.str "y")]])).overall = 1 :=
  (prosecutorRisk_weighted_mean [[("a", Value.str "x")], [("a", Value.str "y")]] ["a"]
    (by decide)).2 (by decide)

/-- C9: in `applyTCloseness`, the processed table consists of exactly
the classes whose computed distance — `(1/2)·Σ_v |P(v) − Q(v)|` over
the union of values of the global and local distributions
(`classDistance`) — is ≤ t, and a class whose local distribution
equals the global one has distance 0 and is retained in full for every
t ≥ 0. -/
theorem tcloseness_distance_zero_retained (data : List Record) (qis : List String)
    (sens : String) (tValue : ℚ) (ht : 0 ≤ tValue) :
    ((applyTCloseness data qis sens tValue).processedData =
      (buildECs qis data).flatMap
        (fun ec => if classDistance data sens ec ≤ tValue then ec.records else [])) ∧
      (∀ ec ∈ buildECs qis data,
        (∀ v, groupProb sens ec v = overallProb data sens v) →
          classDistance data sens ec = 0 ∧
            ∀ row ∈ ec.records, row ∈ (applyTCloseness data qis sens tValue).processedData) := by
  constructor
  · rfl
  · intro ec hec hdist
    have h0 : classDistance data sens ec = 0 := by
      unfold classDistance
      rw [List.map_congr_left (fun v _ => by rw [hdist v, sub_self, abs_zero])]
      simp
    refine ⟨h0, ?_⟩
    intro row hrow
    show row ∈ (buildECs qis data).flatMap
      (fun ec => if classDistance data sens ec ≤ tValue then ec.records else [])
    apply List.mem_flatMap.mpr
    refine ⟨ec, hec, ?_⟩
    rw [if_pos (by rw [h0]; exact ht)]
    exact hrow

/-- Witness for `tcloseness_distance_zero_retained`: a single class
covering the whole table has local distribution equal to the global
one, hence distance 0, even at threshold t = 0. -/
theorem tcloseness_distance_zero_retained_witness :
    classDistance uniformClassTable "s" ⟨"x", uniformClassTable, 2⟩ = 0 :=
  ((tcloseness_distance_zero_retained uniformClassTable ["q"] "s" 0 (le_refl 0)).2
    ⟨"x", uniformClassTable, 2⟩ (by decide) (fun v => rfl)).1

theorem kaFold_suppressed_le (qis : List String) (kValue maxSuppressed : ℤ) :
    ∀ (groups : List (String × List Record)) (st : KAState),
      (st.currentSuppressed : ℤ) ≤ max maxSuppressed 0 →
      (((groups.foldl (kaStep qis kValue maxSuppressed) st).currentSuppressed : ℤ)) ≤
        max maxSuppressed 0 := by
  intro groups
  induction groups with
  | nil => intro st h; exact h
  | cons g gs ih =>
    intro st h
    rw [List.foldl_cons]
    apply ih
    unfold kaStep
    by_cases h1 : (g.2.length : ℤ) ≥ kValue
    · rw [if_pos h1]; exact h
    · rw [if_neg h1]
      by_cases h2 : ((st.currentSuppressed + g.2.length : ℕ) : ℤ) ≤ maxSuppressed
      · rw [if_pos h2]
        exact le_trans h2 (le_max_left _ _)
      · rw [if_neg h2]; exact h

theorem kaFold_processed (qis : List String) (kValue maxSuppressed : ℤ) :
    ∀ (groups : List (String × List Record)) (st : KAState),
      (groups.foldl (kaStep qis kValue maxSuppressed) st).processedData =
        st.processedData ++
          (groups.zip (kaDisps kValue maxSuppressed groups st.currentSuppressed)).flatMap
            (fun p => kaRender qis p.1 p.2) := by
  intro groups
  induction groups with
  | nil => intro st; simp [kaDisps]
  | cons g gs ih =>
    intro st
    rw [List.foldl_cons]
    by_cases h1 : (g.2.length : ℤ) ≥ kValue
    · have hstep : kaStep qis kValue maxSuppressed st g =
          ⟨st.processedData ++ g.2, st.currentSuppressed, st.groupSizes ++ [g.2.length]⟩ := by
        unfold kaStep; rw [if_pos h1]
      rw [hstep, ih]
      rw [kaDisps, if_pos h1]
      simp [kaRender, List.append_assoc]
    · by_cases h2 : ((st.currentSuppressed + g.2.length : ℕ) : ℤ) ≤ maxSuppressed
      · have hstep : kaStep qis kValue maxSuppressed st g =
            ⟨st.processedData, st.currentSuppressed + g.2.length, st.groupSizes⟩ := by
          unfold kaStep; rw [if_neg h1, if_pos h2]
        rw [hstep, ih]
        rw [kaDisps, if_neg h1, if_pos h2]
        simp [kaRender]
      · have hstep : kaStep qis kValue maxSuppressed st g =
            ⟨st.processedData ++ g.2.map (generalizeRecord qis), st.currentSuppressed,
             st.groupSizes ++ [g.2.length]⟩ := by
          unfold kaStep; rw [if_neg h1, if_neg h2]
        rw [hstep, ih]
        rw [kaDisps, if_neg h1, if_neg h2]
        simp [kaRender, List.append_assoc]

theorem kaDisps_keep_implies_ge (kValue maxSuppressed : ℤ) :
    ∀ (groups : List (String × List Record)) (cur : ℕ)
      (p : (String × List Record) × KADisp),
      p ∈ groups.zip (kaDisps kValue maxSuppressed groups cur) →
      p.2 = KADisp.keep → (p.1.2.length : ℤ) ≥ kValue := by
  intro groups
  induction groups with
  | nil => intro cur p hp; simp [kaDisps] at hp
  | cons g gs ih =>
    intro cur p hp hkeep
    by_cases h1 : (g.2.length : ℤ) ≥ kValue
    · rw [kaDisps, if_pos h1] at hp
      rcases List.mem_cons.mp hp with h | h
      · rw [h]; exact h1
      · exact ih cur p h hkeep
    · rw [kaDisps, if_neg h1] at hp
      by_cases h2 : ((cur + g.2.length : ℕ) : ℤ) ≤ maxSuppressed
      · rw [if_pos h2] at hp
        rcases List.mem_cons.mp hp with h | h
        · rw [h] at hkeep; cases hkeep
        · exact ih _ p h hkeep
      · rw [if_neg h2] at hp
        rcases List.mem_cons.mp hp with h | h
        · rw [h] at hkeep; cases hkeep
        · exact ih cur p h hkeep

/-- C3: `applyKAnonymityEnhanced` with `suppressionLimit ∈ [0,1]`
suppresses at most `floor(tableSize × suppressionLimit)` records, its
output is exactly the concatenation of the per-group dispositions
(kept verbatim / suppressed / generalized, replayed by `kaDisps`), and
every group kept verbatim has size ≥ k. -/
theorem kanonymity_verbatim_and_suppression_bound (data : List Record)
    (qis : List String) (kValue : ℤ) (suppressionLimit : ℚ)
    (h0 : 0 ≤ suppressionLimit) (h1 : suppressionLimit ≤ 1) :
    (((applyKAnonymityEnhanced data qis kValue suppressionLimit).recordsSuppressed : ℤ) ≤
        ⌊(data.length : ℚ) * suppressionLimit⌋) ∧
      ((applyKAnonymityEnhanced data qis kValue suppressionLimit).processedData =
        ((groupRows (kaKey qis) data).zip
          (kaDisps kValue ⌊(data.length : ℚ) * suppressionLimit⌋
            (groupRows (kaKey qis) data) 0)).flatMap
          (fun p => kaRender qis p.1 p.2)) ∧
      (∀ p ∈ (groupRows (kaKey qis) data).zip
          (kaDisps kValue ⌊(data.length : ℚ) * suppressionLimit⌋
            (groupRows (kaKey qis) data) 0),
        p.2 = KADisp.keep → (p.1.2.length : ℤ) ≥ kValue) := by
  have hmax : (0 : ℤ) ≤ ⌊(data.length : ℚ) * suppressionLimit⌋ :=
    Int.floor_nonneg.mpr (mul_nonneg (Nat.cast_nonneg _) h0)
  refine ⟨?_, ?_, ?_⟩
  · have hb := kaFold_suppressed_le qis kValue ⌊(data.length : ℚ) * suppressionLimit⌋
      (groupRows (kaKey qis) data) ⟨[], 0, []⟩
      (by simp)
    have hmm : max ⌊(data.length : ℚ) * suppressionLimit⌋ 0 =
        ⌊(data.length : ℚ) * suppressionLimit⌋ := max_eq_left hmax
    rw [hmm] at hb
    exact hb
  · exact kaFold_processed qis kValue _ (groupRows (kaKey qis) data) ⟨[], 0, []⟩
  · exact fun p hp => kaDisps_keep_implies_ge kValue _ (groupRows (kaKey qis) data) 0 p hp

/-- Witness for `kanonymity_verbatim_and_suppression_bound`: the
three-row table with k = 2 and suppressionLimit = 1/2 suppresses at
most floor(3 · 1/2) = 1 record. -/
theorem kanonymity_verbatim_and_suppression_bound_witness :
    (0 : ℚ) ≤ 1/2 ∧ (1/2 : ℚ) ≤ 1 ∧
      (((applyKAnonymityEnhanced threeRowTable ["a"] 2 (1/2)).recordsSuppressed : ℤ) ≤
        ⌊(threeRowTable.length : ℚ) * (1/2)⌋) :=
  ⟨by norm_num, by norm_num,
   (kanonymity_verbatim_and_suppression_bound threeRowTable ["a"] 2 (1/2)
     (by norm_num) (by norm_num)).1⟩

end Statathon
